import Mathlib

/-!
Verification of the `timevalue` library (src/lib.rs): a time-value-of-money
engine with single-sum and annuity valuations, regular and due timing.

The Rust code computes over `f64`; the embedding models the arithmetic over
`ℚ` (exact real-valued arithmetic with the same formulas), with `f64::round`
modelled as round-half-away-from-zero. Rust's `u32` period is modelled as
`ℕ`; the `period - 1` subtraction in `Annuity<T, Regular>::future_value`,
which underflows (and panics in debug builds) when `period = 0`, is modelled
by returning `none` (a panic) in that case. The `.unwrap()` in
`Annuity<T, Due>::present_value` is likewise modelled by `Option`, `none`
standing for the panic on an `Err` result.
-/

namespace TimeValue

/-- The error enum `ValueError` of the source. -/
inductive ValueError where
  | NegativeDiscount
  | EmptyCashFlow
deriving DecidableEq, Repr

/-- Rust's `f64::round`: round to the nearest integer, ties away from zero. -/
def rustRound (q : ℚ) : ℚ :=
  if 0 ≤ q then (⌊q + 1/2⌋ : ℤ) else (⌈q - 1/2⌉ : ℤ)

/-- The helper `fn round(value: f64) -> f64 { (value * 100.0).round() / 100.0 }`. -/
def round (value : ℚ) : ℚ :=
  rustRound (value * 100) / 100

/-- The struct `SingleSum<T>`; the generic amount type `T: Into<f64>` collapses
to the numeric amount itself. -/
structure SingleSum where
  amount : ℚ
  rate : ℚ
  period : ℕ

/-- `<SingleSum<T> as TimeValue>::present_value`. -/
def SingleSum.present_value (s : SingleSum) : Except ValueError ℚ :=
  if s.rate < 0 then .error .NegativeDiscount
  else .ok (round (s.amount / (1 + s.rate) ^ s.period))

/-- `<SingleSum<T> as TimeValue>::future_value`. -/
def SingleSum.future_value (s : SingleSum) : Except ValueError ℚ :=
  if s.rate < 0 then .error .NegativeDiscount
  else .ok (round (s.amount * (1 + s.rate) ^ s.period))

/-- The struct `Annuity<T, M>`: a single cash flow repeated `period` times.
The marker `M` (`Regular` or `Due`) only selects which impl applies, so it is
reflected in the function names below rather than stored. -/
structure Annuity where
  cashflow : ℚ
  rate : ℚ
  period : ℕ

/-- The loop body shared by the `factor` closures: starting from `res`, push
`res` and multiply by `f`, a given number of times. `factor_terms f res n`
is the vector `result` built by `for _ in 0..n { result.push(res); res *= f; }`. -/
def factor_terms (f : ℚ) : ℚ → ℕ → List ℚ
  | _, 0 => []
  | res, Nat.succ n => res :: factor_terms f (res * f) n

/-- `<Annuity<T, Regular> as TimeValue>::present_value`: discount factor
`f = 1/(1+rate)`, sum of `f, f², …, f^period`, times the cash flow, rounded. -/
def Annuity.present_value_regular (a : Annuity) : Except ValueError ℚ :=
  if a.rate < 0 then .error .NegativeDiscount
  else
    let f := 1 / (1 + a.rate)
    .ok (round (a.cashflow * (factor_terms f f a.period).sum))

/-- `<Annuity<T, Regular> as TimeValue>::future_value`: the loop runs over
`0..period - 1` on a `u32`, so `period = 0` underflows — a panic in debug
builds (modelled as `none`); otherwise growth factors `f, …, f^(period-1)`
are summed, `1.0` is added, and the cash flow is scaled and rounded. -/
def Annuity.future_value_regular (a : Annuity) : Option (Except ValueError ℚ) :=
  if a.rate < 0 then some (.error .NegativeDiscount)
  else if a.period = 0 then none
  else
    let f := 1 + a.rate
    some (.ok (round (a.cashflow * ((factor_terms f f (a.period - 1)).sum + 1))))

/-- `<Annuity<T, Due> as TimeValue>::present_value`: after its own rate check it
delegates to the `Regular` present value, calls `.unwrap()` on the result
(`none` models the panic on an `Err`), scales by `1 + rate` and rounds. -/
def Annuity.present_value_due (a : Annuity) : Option (Except ValueError ℚ) :=
  if a.rate < 0 then some (.error .NegativeDiscount)
  else
    match Annuity.present_value_regular ⟨a.cashflow, a.rate, a.period⟩ with
    | .error _ => none
    | .ok pv => some (.ok (round (pv * (1 + a.rate))))

/-- `<Annuity<T, Due> as TimeValue>::future_value`: growth factors
`f, f², …, f^period` are summed, the cash flow is scaled and rounded. -/
def Annuity.future_value_due (a : Annuity) : Except ValueError ℚ :=
  if a.rate < 0 then .error .NegativeDiscount
  else
    let f := 1 + a.rate
    .ok (round (a.cashflow * (factor_terms f f a.period).sum))

/-- The `factor` loops compute a geometric series: starting value `r`, ratio `f`. -/
lemma factor_terms_sum (f r : ℚ) (n : ℕ) :
    (factor_terms f r n).sum = r * ∑ i ∈ Finset.range n, f ^ i := by
  induction n generalizing r with
  | zero => simp [factor_terms]
  | succ n ih =>
      rw [factor_terms, List.sum_cons, ih, Finset.sum_range_succ', mul_add, pow_zero,
        mul_one, add_comm, Finset.mul_sum, Finset.mul_sum]
      congr 1
      apply Finset.sum_congr rfl
      intro i _
      ring

/-- Reindexing of the spec's sum `Σ_{i=1..n} C·g^(n−i)` to a plain geometric sum. -/
lemma sum_Icc_pow_sub (C g : ℚ) (n : ℕ) :
    ∑ i ∈ Finset.Icc 1 n, C * g ^ (n - i) = ∑ i ∈ Finset.range n, C * g ^ i := by
  rw [← Nat.Ico_succ_right, Finset.sum_Ico_eq_sum_range]
  simp only [Nat.succ_sub_one]
  rw [← Finset.sum_range_reflect (fun j => C * g ^ j) n]
  apply Finset.sum_congr rfl
  intro i _
  congr 2
  omega

/-- Reindexing of the spec's sum `Σ_{i=1..n} C·g^(n−i+1)` to a geometric sum
with exponents `1..n`. -/
lemma sum_Icc_pow_sub_add (C g : ℚ) (n : ℕ) :
    ∑ i ∈ Finset.Icc 1 n, C * g ^ (n - i + 1) = ∑ i ∈ Finset.range n, C * g ^ (i + 1) := by
  rw [← Nat.Ico_succ_right, Finset.sum_Ico_eq_sum_range]
  simp only [Nat.succ_sub_one]
  rw [← Finset.sum_range_reflect (fun j => C * g ^ (j + 1)) n]
  apply Finset.sum_congr rfl
  intro i _
  congr 2
  omega

/-- Round-half-away-from-zero is within 1/2 of its argument. -/
lemma abs_rustRound_sub_le (q : ℚ) : |rustRound q - q| ≤ 1/2 := by
  unfold rustRound
  split_ifs with h
  · rw [abs_le]
    have h1 := Int.sub_one_lt_floor (q + 1/2)
    have h2 := Int.floor_le (q + 1/2)
    constructor <;> [linarith; linarith]
  · rw [abs_le]
    have h1 := Int.le_ceil (q - 1/2)
    have h2 := Int.ceil_lt_add_one (q - 1/2)
    constructor <;> [linarith; linarith]

/-- Rounding to cents is within half a cent of the exact value. -/
lemma abs_round_sub_le (x : ℚ) : |round x - x| ≤ 1/200 := by
  have h := abs_rustRound_sub_le (x * 100)
  unfold round
  have he : rustRound (x * 100) / 100 - x = (rustRound (x * 100) - x * 100) / 100 := by
    ring
  rw [he, abs_div, abs_of_pos (by norm_num : (0:ℚ) < 100)]
  linarith

/-- C4: for any amounts and periods, a negative rate makes every one of the six
entry points (single-sum present/future value, regular and due annuity
present/future value) return `NegativeDiscount`; the check precedes all
arithmetic and cash-flow access, so it also wins at `period = 0`, where the
regular future value would otherwise underflow. -/
theorem negative_rate_rejected_first (A C r : ℚ) (n m : ℕ) (h : r < 0) :
    SingleSum.present_value ⟨A, r, n⟩ = .error .NegativeDiscount ∧
    SingleSum.future_value ⟨A, r, n⟩ = .error .NegativeDiscount ∧
    Annuity.present_value_regular ⟨C, r, m⟩ = .error .NegativeDiscount ∧
    Annuity.future_value_regular ⟨C, r, m⟩ = some (.error .NegativeDiscount) ∧
    Annuity.present_value_due ⟨C, r, m⟩ = some (.error .NegativeDiscount) ∧
    Annuity.future_value_due ⟨C, r, m⟩ = .error .NegativeDiscount := by
  refine ⟨?_, ?_, ?_, ?_, ?_, ?_⟩ <;>
    simp [SingleSum.present_value, SingleSum.future_value, Annuity.present_value_regular,
      Annuity.future_value_regular, Annuity.present_value_due, Annuity.future_value_due, h]

/-- Witness for C4 at `r = -1`, `period = 0`. -/
theorem negative_rate_rejected_first_witness :
    SingleSum.present_value ⟨1, -1, 0⟩ = .error .NegativeDiscount ∧
    SingleSum.future_value ⟨1, -1, 0⟩ = .error .NegativeDiscount ∧
    Annuity.present_value_regular ⟨2, -1, 0⟩ = .error .NegativeDiscount ∧
    Annuity.future_value_regular ⟨2, -1, 0⟩ = some (.error .NegativeDiscount) ∧
    Annuity.present_value_due ⟨2, -1, 0⟩ = some (.error .NegativeDiscount) ∧
    Annuity.future_value_due ⟨2, -1, 0⟩ = .error .NegativeDiscount :=
  negative_rate_rejected_first 1 2 (-1) 0 0 (by norm_num)

/-- C6: single-sum present value is `round2(A / (1+r)^n)` and future value is
`round2(A * (1+r)^n)` for every amount (negative included), `r ≥ 0` and `n`. -/
theorem single_sum_formulas (A r : ℚ) (n : ℕ) (h : 0 ≤ r) :
    SingleSum.present_value ⟨A, r, n⟩ = .ok (round (A / (1 + r) ^ n)) ∧
    SingleSum.future_value ⟨A, r, n⟩ = .ok (round (A * (1 + r) ^ n)) := by
  constructor <;>
    simp [SingleSum.present_value, SingleSum.future_value, not_lt.mpr h]

/-- Witness for C6 at `A = -3`, `r = 0`, `n = 2`. -/
theorem single_sum_formulas_witness :
    SingleSum.present_value ⟨-3, 0, 2⟩ = .ok (round ((-3) / (1 + 0) ^ 2)) ∧
    SingleSum.future_value ⟨-3, 0, 2⟩ = .ok (round ((-3) * (1 + 0) ^ 2)) :=
  single_sum_formulas (-3) 0 2 (by norm_num)

/-- C10: once the rate is non-negative, the delegated regular present value
returns `Ok`, so the `.unwrap()` in the due present value cannot panic: the
call returns `some (Except.ok _)` for every cash flow and period. -/
theorem due_present_value_no_panic (C r : ℚ) (n : ℕ) (h : 0 ≤ r) :
    ∃ v, Annuity.present_value_due ⟨C, r, n⟩ = some (Except.ok v) := by
  have hreg : Annuity.present_value_regular ⟨C, r, n⟩ =
      .ok (round (C * (factor_terms (1/(1+r)) (1/(1+r)) n).sum)) := by
    simp only [Annuity.present_value_regular]
    rw [if_neg (not_lt.mpr h)]
  refine ⟨round (round (C * (factor_terms (1/(1+r)) (1/(1+r)) n).sum) * (1 + r)), ?_⟩
  simp only [Annuity.present_value_due]
  rw [if_neg (not_lt.mpr h), hreg]

/-- Witness for C10 at `C = 2`, `r = 0`, `n = 0`. -/
theorem due_present_value_no_panic_witness :
    ∃ v, Annuity.present_value_due ⟨2, 0, 0⟩ = some (Except.ok v) :=
  due_present_value_no_panic 2 0 0 (by norm_num)

/-- C5: for `r ≥ 0` the due present value is the (already rounded) regular
present value scaled by `1 + r` and rounded again, obtained by delegation. -/
theorem due_present_value_delegates (C r : ℚ) (n : ℕ) (h : 0 ≤ r) (v : ℚ)
    (hreg : Annuity.present_value_regular ⟨C, r, n⟩ = .ok v) :
    Annuity.present_value_due ⟨C, r, n⟩ = some (.ok (round (v * (1 + r)))) := by
  simp only [Annuity.present_value_due]
  rw [if_neg (not_lt.mpr h), hreg]

/-- Witness for C5 at `C = 1`, `r = 1`, `n = 1`, where the regular present
value evaluates to `0.5`. -/
theorem due_present_value_delegates_witness :
    Annuity.present_value_due ⟨1, 1, 1⟩ = some (.ok (round ((1/2) * (1 + 1)))) :=
  due_present_value_delegates 1 1 1 (by norm_num) (1/2) (by
    simp only [Annuity.present_value_regular]
    rw [if_neg (by norm_num), factor_terms_sum]
    norm_num [round, rustRound])

/-- C7: for `r ≥ 0` the due future value is `round2(Σ_{i=1..n} C·(1+r)^(n−i+1))`:
every term, the one paid at period `n` included, carries at least one period
of growth. -/
theorem due_future_value_formula (C r : ℚ) (n : ℕ) (h : 0 ≤ r) :
    Annuity.future_value_due ⟨C, r, n⟩ =
      .ok (round (∑ i ∈ Finset.Icc 1 n, C * (1 + r) ^ (n - i + 1))) := by
  simp only [Annuity.future_value_due]
  rw [if_neg (not_lt.mpr h)]
  have inner : C * ((1 + r) * ∑ i ∈ Finset.range n, (1 + r) ^ i)
      = ∑ i ∈ Finset.range n, C * (1 + r) ^ (i + 1) := by
    rw [Finset.mul_sum, Finset.mul_sum]
    apply Finset.sum_congr rfl
    intro i _
    ring
  rw [factor_terms_sum, sum_Icc_pow_sub_add, inner]

/-- Witness for C7 at `C = 1`, `r = 1`, `n = 1`. -/
theorem due_future_value_formula_witness :
    Annuity.future_value_due ⟨1, 1, 1⟩ =
      .ok (round (∑ i ∈ Finset.Icc 1 1, 1 * ((1:ℚ) + 1) ^ (1 - i + 1))) :=
  due_future_value_formula 1 1 1 (by norm_num)

/-- C1 fails as stated: at `C = 100`, `r = 1`, `n = 1` the code returns `100`
(the single cash flow earns no interest), while the claimed formula
`round2(Σ_{i=1..n} C·(1+r)^(n−i+1))` gives `200`. -/
theorem regular_future_value_claim_counterexample :
    Annuity.future_value_regular ⟨100, 1, 1⟩ = some (.ok 100) ∧
    round (∑ i ∈ Finset.Icc 1 1, 100 * ((1:ℚ) + 1) ^ (1 - i + 1)) = 200 ∧
    (100 : ℚ) ≠ 200 := by
  refine ⟨?_, ?_, by norm_num⟩
  · simp only [Annuity.future_value_regular]
    rw [if_neg (by norm_num), if_neg (by norm_num)]
    norm_num [factor_terms_sum, round, rustRound]
  · norm_num [Finset.Icc_self, round, rustRound]

/-- C1 amended: for `r ≥ 0` and `n ≥ 1` the regular future value is
`round2(Σ_{i=1..n} C·(1+r)^(n−i))` — the exponents run from `n−1` down to `0`,
so the final cash flow earns zero periods of interest. -/
theorem regular_future_value_formula (C r : ℚ) (n : ℕ) (h : 0 ≤ r) (hn : 1 ≤ n) :
    Annuity.future_value_regular ⟨C, r, n⟩ =
      some (.ok (round (∑ i ∈ Finset.Icc 1 n, C * (1 + r) ^ (n - i)))) := by
  simp only [Annuity.future_value_regular]
  rw [if_neg (not_lt.mpr h), if_neg (by omega : ¬ n = 0)]
  have inner : C * ((1 + r) * ∑ i ∈ Finset.range (n - 1), (1 + r) ^ i + 1)
      = ∑ i ∈ Finset.range n, C * (1 + r) ^ i := by
    obtain ⟨m, rfl⟩ : ∃ m, n = m + 1 := ⟨n - 1, by omega⟩
    simp only [Nat.add_sub_cancel]
    rw [Finset.sum_range_succ', pow_zero, mul_add, mul_one, Finset.mul_sum, Finset.mul_sum]
    congr 1
    apply Finset.sum_congr rfl
    intro i _
    ring
  rw [factor_terms_sum, sum_Icc_pow_sub, inner]

/-- Witness for the amended C1 at `C = 1`, `r = 1`, `n = 1`. -/
theorem regular_future_value_formula_witness :
    Annuity.future_value_regular ⟨1, 1, 1⟩ =
      some (.ok (round (∑ i ∈ Finset.Icc 1 1, 1 * ((1:ℚ) + 1) ^ (1 - i)))) :=
  regular_future_value_formula 1 1 1 (by norm_num) (by norm_num)

/-- C2: at `period = 0` the five non-panicking entry points return a value,
but `Annuity<T, Regular>::future_value` evaluates `period - 1` on a `u32`,
underflows, and panics (modelled as `none`): zero periods is not safe for all
four operations, contradicting the spec. -/
theorem period_zero_behavior :
    Annuity.future_value_regular ⟨100, 1/10, 0⟩ = none ∧
    SingleSum.present_value ⟨100, 1/10, 0⟩ = .ok 100 ∧
    SingleSum.future_value ⟨100, 1/10, 0⟩ = .ok 100 ∧
    Annuity.present_value_regular ⟨100, 1/10, 0⟩ = .ok 0 ∧
    Annuity.present_value_due ⟨100, 1/10, 0⟩ = some (.ok 0) ∧
    Annuity.future_value_due ⟨100, 1/10, 0⟩ = .ok 0 := by
  have hreg : Annuity.present_value_regular ⟨100, 1/10, 0⟩ = .ok 0 := by
    simp only [Annuity.present_value_regular]
    rw [if_neg (by norm_num)]
    norm_num [factor_terms_sum, round, rustRound]
  refine ⟨?_, ?_, ?_, hreg, ?_, ?_⟩
  · simp only [Annuity.future_value_regular]
    rw [if_neg (by norm_num)]
    simp
  · norm_num [SingleSum.present_value, round, rustRound]
  · norm_num [SingleSum.future_value, round, rustRound]
  · simp only [Annuity.present_value_due]
    rw [if_neg (by norm_num), hreg]
    norm_num [round, rustRound]
  · simp only [Annuity.future_value_due]
    rw [if_neg (by norm_num)]
    norm_num [factor_terms_sum, round, rustRound]

/-- C3: a period count of `0` (the empty cash-flow series) never yields
`EmptyCashFlow`: the present-value paths and the due future value return the
numeric result `Ok(0.0)` (or `Ok(0.0)` scaled), and the regular future value
panics; the `EmptyCashFlow` variant is declared in the source but never
constructed. -/
theorem empty_cashflow_never_reported :
    Annuity.present_value_regular ⟨7, 1/4, 0⟩ = .ok 0 ∧
    Annuity.present_value_due ⟨7, 1/4, 0⟩ = some (.ok 0) ∧
    Annuity.future_value_due ⟨7, 1/4, 0⟩ = .ok 0 ∧
    Annuity.future_value_regular ⟨7, 1/4, 0⟩ = none := by
  have hreg : Annuity.present_value_regular ⟨7, 1/4, 0⟩ = .ok 0 := by
    simp only [Annuity.present_value_regular]
    rw [if_neg (by norm_num)]
    norm_num [factor_terms_sum, round, rustRound]
  refine ⟨hreg, ?_, ?_, ?_⟩
  · simp only [Annuity.present_value_due]
    rw [if_neg (by norm_num), hreg]
    norm_num [round, rustRound]
  · simp only [Annuity.future_value_due]
    rw [if_neg (by norm_num)]
    norm_num [factor_terms_sum, round, rustRound]
  · simp only [Annuity.future_value_regular]
    rw [if_neg (by norm_num)]
    simp

/-- C8: the six concrete scenarios of the spec evaluate to exactly the listed
cent-rounded results. -/
theorem scenario_table :
    SingleSum.future_value ⟨150000, 12/100, 10⟩ = .ok (46587723/100) ∧
    SingleSum.present_value ⟨1000, 10/100, 3⟩ = .ok (75131/100) ∧
    Annuity.present_value_regular ⟨5000, 12/100, 10⟩ = .ok (2825112/100) ∧
    Annuity.present_value_due ⟨5000, 12/100, 10⟩ = some (.ok (3164125/100)) ∧
    Annuity.future_value_regular ⟨50000, 9/100, 7⟩ = some (.ok (46002173/100)) ∧
    Annuity.future_value_due ⟨200000, 12/100, 7⟩ = .ok (225993863/100) := by
  have h3 : Annuity.present_value_regular ⟨5000, 12/100, 10⟩ = .ok (2825112/100) := by
    simp only [Annuity.present_value_regular]
    rw [if_neg (by norm_num), factor_terms_sum, geom_sum_eq (by norm_num)]
    norm_num [round, rustRound]
  refine ⟨?_, ?_, h3, ?_, ?_, ?_⟩
  · simp only [SingleSum.future_value]
    rw [if_neg (by norm_num)]
    norm_num [round, rustRound]
  · simp only [SingleSum.present_value]
    rw [if_neg (by norm_num)]
    norm_num [round, rustRound]
  · simp only [Annuity.present_value_due]
    rw [if_neg (by norm_num), h3]
    norm_num [round, rustRound]
  · simp only [Annuity.future_value_regular]
    rw [if_neg (by norm_num), if_neg (by norm_num), factor_terms_sum,
      geom_sum_eq (by norm_num)]
    norm_num [round, rustRound]
  · simp only [Annuity.future_value_due]
    rw [if_neg (by norm_num), factor_terms_sum, geom_sum_eq (by norm_num)]
    norm_num [round, rustRound]

/-- C9: composing the single-sum future value with the present value at the
same non-negative rate and period recovers the amount to within one cent. -/
theorem single_sum_round_trip (A r : ℚ) (n : ℕ) (h : 0 ≤ r) (fv pv : ℚ)
    (hfv : SingleSum.future_value ⟨A, r, n⟩ = .ok fv)
    (hpv : SingleSum.present_value ⟨fv, r, n⟩ = .ok pv) :
    |pv - A| ≤ 1/100 := by
  have hg1 : (1:ℚ) ≤ (1 + r) ^ n := one_le_pow₀ (by linarith)
  have hg0 : (0:ℚ) < (1 + r) ^ n := by linarith
  simp only [SingleSum.future_value, if_neg (not_lt.mpr h), Except.ok.injEq] at hfv
  simp only [SingleSum.present_value, if_neg (not_lt.mpr h), Except.ok.injEq] at hpv
  subst hfv
  subst hpv
  have h1 := abs_round_sub_le (round (A * (1 + r) ^ n) / (1 + r) ^ n)
  have h2 := abs_round_sub_le (A * (1 + r) ^ n)
  have h3 : |round (A * (1 + r) ^ n) / (1 + r) ^ n - A| ≤ 1/200 := by
    have he : round (A * (1 + r) ^ n) / (1 + r) ^ n - A
        = (round (A * (1 + r) ^ n) - A * (1 + r) ^ n) / (1 + r) ^ n := by
      field_simp
      ring
    rw [he, abs_div, abs_of_pos hg0]
    calc |round (A * (1 + r) ^ n) - A * (1 + r) ^ n| / (1 + r) ^ n
        ≤ (1/200) / (1 + r) ^ n := (div_le_div_iff_of_pos_right hg0).mpr h2
      _ ≤ 1/200 := by
          rw [div_le_iff₀ hg0]
          nlinarith
  calc |round (round (A * (1 + r) ^ n) / (1 + r) ^ n) - A|
      ≤ |round (round (A * (1 + r) ^ n) / (1 + r) ^ n)
          - round (A * (1 + r) ^ n) / (1 + r) ^ n|
        + |round (A * (1 + r) ^ n) / (1 + r) ^ n - A| :=
        abs_sub_le _ _ _
    _ ≤ 1/200 + 1/200 := add_le_add h1 h3
    _ = 1/100 := by norm_num

/-- Witness for C9 at `A = 1`, `r = 0`, `n = 1`: the future value is `1`, the
present value of that is `1`, and `|1 - 1| ≤ 1/100`. -/
theorem single_sum_round_trip_witness : |(1:ℚ) - 1| ≤ 1/100 :=
  single_sum_round_trip 1 0 1 (by norm_num) 1 1
    (by
      simp only [SingleSum.future_value]
      rw [if_neg (by norm_num)]
      norm_num [round, rustRound])
    (by
      simp only [SingleSum.present_value]
      rw [if_neg (by norm_num)]
      norm_num [round, rustRound])

end TimeValue
